import Mathlib

/-!
Verification development for the ufo repository slice: the channel-expansion
logic of the RTTOV radiance observation operator (src/ufo/rttov/ObsRadianceRTTOV.cc)
and the conditional value-assignment engine declared in
src/ufo/filters/VariableAssignment.h.
-/

-- ===================== Definitions =====================

/-- Insertion of an element into a strictly sorted list without duplicates.
This models insertion into a C++ std::set of int: the set keeps its elements
in strictly increasing order and ignores an element already present. -/
def insertChan (x : Int) : List Int → List Int
  | [] => [x]
  | y :: ys => if x < y then x :: y :: ys else if x = y then y :: ys else y :: insertChan x ys

/-- The contents of the std::set of int built from the parsed channel numbers in
ObsRadianceRTTOV.cc line 50 (std::set of int channels = oops::parseIntSet(chlist)),
read off in the iteration order of the set. -/
def channelSet (l : List Int) : List Int := l.foldl (fun s x => insertChan x s) []

/-- Output variable name for channel jj, from ObsRadianceRTTOV.cc line 53:
"brightness_temperature_" + std::to_string(jj) + "_". -/
def channelVarName (jj : Int) : String := "brightness_temperature_" ++ toString jj ++ "_"

/-- The vector vout of output variable names built by the loop of
ObsRadianceRTTOV.cc lines 52-54: one name per element of the channel set,
in set iteration order. -/
def rttovVarout (l : List Int) : List String := (channelSet l).map channelVarName

/-- Closed enumeration of column value types, from the spec's data model
(int, float, string or datetime, matching the type option of
AssignmentParameters in VariableAssignment.h). -/
inductive ValueType where
  | Integer : ValueType
  | Float : ValueType
  | String : ValueType
  | DateTime : ValueType
deriving DecidableEq, Repr

/-- A column element: a concrete value of one of the four types, or the
missing-value sentinel of a type. -/
inductive Value where
  | intV : Int → Value
  | floatV : Int → Nat → Value
  | strV : String → Value
  | dtV : String → Value
  | missingOf : ValueType → Value
deriving DecidableEq, Repr

/-- Missing-value sentinel of a type (the spec fixes one reserved sentinel
constant per ValueType). -/
def missingValue (t : ValueType) : Value := Value.missingOf t

/-- A column: a ValueType plus the list of per-row elements. -/
structure Column where
  type : ValueType
  data : List Value
deriving DecidableEq, Repr

/-- The tabular store, as an association list from column names to columns. -/
abbrev Store := List (String × Column)

/-- Names of the columns of a store, in store order. -/
def storeKeys (σ : Store) : List String := σ.map (fun e => e.1)

/-- Lookup of a column by name (first match). -/
def lookupCol : Store → String → Option Column
  | [], _ => none
  | e :: rest, name => if e.1 = name then some e.2 else lookupCol rest name

/-- Creation of a column: full table length, filled with the missing sentinel
of its type (spec 4.3 case 1). -/
def createCol (σ : Store) (name : String) (t : ValueType) (n : Nat) : Store :=
  σ ++ [(name, ⟨t, List.replicate n (missingValue t)⟩)]

/-- In-place write of the values vals (a full-length sequence) into a column
at the row indices rows; rows outside the data range are ignored by List.set. -/
def writeVals (col : Column) (rows : List Nat) (vals : List Value) : Column :=
  ⟨col.type, rows.foldl (fun d r => d.set r (vals.getD r (missingValue col.type))) col.data⟩

/-- Write into the named column of a store. -/
def writeStore (σ : Store) (name : String) (rows : List Nat) (vals : List Value) : Store :=
  σ.map (fun e => (e.1, if e.1 = name then writeVals e.2 rows vals else e.2))

/-- Error kinds of one assignment pass, from spec section 7. -/
inductive AssignError where
  | SpecConflictError : AssignError
  | MissingTypeError : AssignError
  | TypeConflictError : AssignError
  | TypeMismatchError : AssignError
  | DimensionMismatchError : AssignError
  | InvalidRowIndexError : AssignError
deriving DecidableEq, Repr

/-- Value source of an assignment: a literal string or a reference to an
externally evaluated function variable. -/
inductive Source where
  | lit : String → Source
  | fn : String → Source
deriving DecidableEq, Repr

/-- One assignment specification, mirroring AssignmentParameters of
VariableAssignment.h: required name, channel list, optional value, optional
function reference, optional declared type.  The value and function fields are
both optional at this level; the mutual-exclusion check is performed by the
engine (checkSource below), as the deserialize override documented in
VariableAssignment.h lines 60-62 does. -/
structure AssignmentSpec where
  name : String
  channels : List Int
  val : Option String
  fnref : Option String
  declType : Option ValueType
deriving DecidableEq, Repr

/-- Modelled from the spec: the mutual-exclusion check performed by
AssignmentParameters::deserialize, whose body is not part of this slice
(only its declaration in VariableAssignment.h).  Exactly one of the value and
function options must be given, otherwise SpecConflictError; this check uses
only the spec itself, no store access. -/
def checkSource (s : AssignmentSpec) : Except AssignError Source :=
  match s.val, s.fnref with
  | some v, none => .ok (.lit v)
  | none, some f => .ok (.fn f)
  | _, _ => .error .SpecConflictError

/-- Modelled from the spec: the deterministic name+channel composition rule of
the assignment engine (the VariableAssignment implementation is not part of
this slice).  A spec without channels targets its base name; with channels it
targets one composed name per channel, in channel-list order, each paired with
its channel. -/
def targetsOf (s : AssignmentSpec) : List (String × Option Int) :=
  match s.channels with
  | [] => [(s.name, none)]
  | cs => cs.map (fun c => (s.name ++ ("_") ++ toString c, some c))

/-- Modelled from the spec: column type reconciliation (spec 4.3), part of the
missing VariableAssignment implementation.  Absent column: a declared type is
required and the column is created missing-filled; existing column: a declared
type must equal the existing type; otherwise the existing type is used. -/
def reconcile (σ : Store) (name : String) (t? : Option ValueType) (n : Nat) :
    Except AssignError (Store × ValueType) :=
  match lookupCol σ name with
  | none =>
    match t? with
    | none => .error .MissingTypeError
    | some t => .ok (createCol σ name t n, t)
  | some col =>
    match t? with
    | some t => if t = col.type then .ok (σ, col.type) else .error .TypeConflictError
    | none => .ok (σ, col.type)

/-- Numeric value of a decimal digit character. -/
def digitVal (c : Char) : Option Nat :=
  if c = ('0') then some 0 else if c = ('1') then some 1 else if c = ('2') then some 2
  else if c = ('3') then some 3 else if c = ('4') then some 4 else if c = ('5') then some 5
  else if c = ('6') then some 6 else if c = ('7') then some 7 else if c = ('8') then some 8
  else if c = ('9') then some 9 else none

/-- Accumulating read of a nonempty run of decimal digits. -/
def digitsToNat : List Char → Option Nat → Option Nat
  | [], acc => acc
  | c :: cs, acc =>
    match digitVal c, acc with
    | some d, some n => digitsToNat cs (some (n * 10 + d))
    | some d, none => digitsToNat cs (some d)
    | none, _ => none

/-- Read of an optionally signed decimal integer from a character list. -/
def charsToInt : List Char → Option Int
  | [] => none
  | c :: cs =>
    if c = ('-') then (digitsToNat cs none).map (fun n => -(n : Int))
    else (digitsToNat (c :: cs) none).map (fun n => (n : Int))

/-- Read of an optionally signed decimal integer from a string. -/
def strToInt (s : String) : Option Int := charsToInt s.data

/-- Split of a character list at the first decimal point, if any. -/
def splitAtDot : List Char → List Char × Option (List Char)
  | [] => ([], none)
  | c :: cs =>
    if c = ('.') then ([], some cs)
    else ((c :: (splitAtDot cs).1), (splitAtDot cs).2)

/-- Parse of a decimal literal into an integer mantissa and a count of
fraction digits (the value is mantissa divided by ten to the count). -/
def parseFloatLit (s : String) : Option (Int × Nat) :=
  match splitAtDot s.data with
  | (a, none) => (charsToInt a).map (fun i => (i, 0))
  | (a, some b) =>
    match charsToInt a, digitsToNat b none with
    | some i, some f =>
      some (if (a.take 1) = [('-')] then i * (10 : Int) ^ b.length - (f : Int)
            else i * (10 : Int) ^ b.length + (f : Int), b.length)
    | _, _ => none

/-- Modelled from the spec: parse of a literal string into the target type
(spec 4.2), part of the missing VariableAssignment implementation.  A numeric
literal unparsable as the target type fails; in particular a fractional
literal is not an Integer.  String and DateTime literals are taken verbatim
(the spec does not constrain the datetime text format). -/
def parseLiteral (t : ValueType) (s : String) : Option Value :=
  match t with
  | .Integer => (strToInt s).map Value.intV
  | .Float => (parseFloatLit s).map (fun p => Value.floatV p.1 p.2)
  | .String => some (Value.strV s)
  | .DateTime => some (Value.dtV s)

/-- Environment of one assignment pass: the table row count, the selected row
set (computed once and shared across specs), and the external
function-evaluation capability, keyed by function reference and optional
channel ("one value stream per channel"). -/
structure Env where
  rowCount : Nat
  rows : List Nat
  evalFun : String → Option Int → List Value

/-- Modelled from the spec: value resolution (spec 4.2), part of the missing
VariableAssignment implementation.  A literal is parsed once into the target
type and replicated over the full row range; a function source invokes the
external evaluator over the full row range and fails with
DimensionMismatchError unless the returned length equals the table row count. -/
def resolveVals (env : Env) (src : Source) (ch : Option Int) (t : ValueType) :
    Except AssignError (List Value) :=
  match src with
  | .lit s =>
    match parseLiteral t s with
    | none => .error .TypeMismatchError
    | some v => .ok (List.replicate env.rowCount v)
  | .fn f =>
    let vals := env.evalFun f ch
    if vals.length = env.rowCount then .ok vals else .error .DimensionMismatchError

/-- Modelled from the spec: processing of one concrete target column
(spec 4.4: Reconcile, ResolveValues, Write), part of the missing
VariableAssignment implementation.  Returns the store reached so far together
with the first error, if any; a defensive row-index check precedes the write. -/
def processTarget (env : Env) (σ : Store) (src : Source) (t? : Option ValueType)
    (tgt : String × Option Int) : Store × Option AssignError :=
  match reconcile σ tgt.1 t? env.rowCount with
  | .error e => (σ, some e)
  | .ok (σ₁, t) =>
    match resolveVals env src tgt.2 t with
    | .error e => (σ₁, some e)
    | .ok vals =>
      if env.rows.all (fun r => r < env.rowCount) then (writeStore σ₁ tgt.1 env.rows vals, none)
      else (σ₁, some .InvalidRowIndexError)

/-- Modelled from the spec: processing of the expanded target list of one
spec, fail-fast, part of the missing VariableAssignment implementation. -/
def processTargets (env : Env) (src : Source) (t? : Option ValueType) :
    List (String × Option Int) → Store → Store × Option AssignError
  | [], σ => (σ, none)
  | tgt :: rest, σ =>
    match processTarget env σ src t? tgt with
    | (σ₁, none) => processTargets env src t? rest σ₁
    | (σ₁, some e) => (σ₁, some e)

/-- Modelled from the spec: processing of one assignment spec (spec 4.4:
ExpandChannels, then per-target Reconcile, ResolveValues, Write), part of the
missing VariableAssignment implementation.  The spec-conflict check runs
before any store access. -/
def processSpec (env : Env) (σ : Store) (s : AssignmentSpec) : Store × Option AssignError :=
  match checkSource s with
  | .error e => (σ, some e)
  | .ok src => processTargets env src s.declType (targetsOf s) σ

/-- Modelled from the spec: one assignment pass over the ordered spec list
(spec 4.4), part of the missing VariableAssignment implementation: fail-fast
on the first spec-level error, no rollback of prior writes. -/
def runPass (env : Env) : List AssignmentSpec → Store → Store × Option AssignError
  | [], σ => (σ, none)
  | s :: rest, σ =>
    match processSpec env σ s with
    | (σ₁, none) => runPass env rest σ₁
    | (σ₁, some e) => (σ₁, some e)

/-- Modelled from the spec: RowSelector.select (spec 4.1), part of the missing
VariableAssignment implementation.  With no predicate, all indices of the
range; with a predicate, the indices at which the externally evaluated
per-row boolean is true, in row order. -/
def select (p? : Option (Nat → Bool)) (n : Nat) : List Nat :=
  match p? with
  | none => List.range n
  | some p => (List.range n).filter p

/-- Fixture: an empty-table environment. -/
def envTrivial : Env := ⟨0, [], fun _ _ => []⟩

/-- Fixture: a spec with neither value nor function (spec conflict). -/
def specNeither : AssignmentSpec := ⟨"x", [], none, none, some ValueType.Integer⟩

/-- Fixture: an existing Integer column named flag, one row. -/
def storeFlagInt : Store := [("flag", ⟨ValueType.Integer, [Value.intV 0]⟩)]

/-- Fixture: a spec redeclaring the flag column as Float (scenario 3). -/
def specFlagFloat : AssignmentSpec := ⟨"flag", [], some ("1.0"), none, some ValueType.Float⟩

/-- Fixture: a five-row environment whose evaluator returns three values
(scenario 5). -/
def envFiveRows : Env := ⟨5, [], fun _ _ => [Value.intV 1, Value.intV 2, Value.intV 3]⟩

/-- Fixture: a function-sourced spec for a fresh Integer column. -/
def specFunG : AssignmentSpec := ⟨"y", [], none, some ("g"), some ValueType.Integer⟩

/-- Fixture: a one-row environment selecting row 0. -/
def envOneRow : Env := ⟨1, [0], fun _ _ => []⟩

/-- Fixture: a literal spec assigning 1 to a fresh Integer column a. -/
def specA1 : AssignmentSpec := ⟨"a", [], some ("1"), none, some ValueType.Integer⟩

/-- Fixture: a conflicting spec (neither value nor function) for column b. -/
def specBad : AssignmentSpec := ⟨"b", [], none, none, none⟩

/-- Fixture: a literal spec assigning 2 to a fresh Integer column c. -/
def specC2lit : AssignmentSpec := ⟨"c", [], some ("2"), none, some ValueType.Integer⟩

/-- Fixture: a four-row environment selecting rows 1 and 2 (scenario 2). -/
def envFourRows : Env := ⟨4, [1, 2], fun _ _ => []⟩

/-- Fixture: a literal spec assigning 2 to a fresh Integer column flag. -/
def specFlag2 : AssignmentSpec := ⟨"flag", [], some ("2"), none, some ValueType.Integer⟩

/-- Evolution invariant of one cell (row r) across a store transformation of
the assignment engine: a pre-existing column keeps its type, its length and
its row-r entry, and a column that appears has full table length n and the
missing sentinel of its own type at row r.  It holds for every engine step
when row r is not selected. -/
def cellKept (n : Nat) (r : Nat) (σ σ' : Store) : Prop :=
  ∀ name,
    (lookupCol σ name = none →
      lookupCol σ' name = none ∨
      ∃ c, lookupCol σ' name = some c ∧ c.data.length = n ∧
        c.data[r]? = some (missingValue c.type)) ∧
    (∀ c, lookupCol σ name = some c →
      ∃ c', lookupCol σ' name = some c' ∧ c'.type = c.type ∧
        c'.data.length = c.data.length ∧ c'.data[r]? = c.data[r]?)

/-- Value held at row r of the named column, if the column exists and the row
is within its data. -/
def cellVal (σ : Store) (name : String) (r : Nat) : Option Value :=
  (lookupCol σ name).bind (fun c => c.data[r]?)

/-- Store growth invariant of the engine: every column of the first store is
present in the second with the same type and the same length. -/
def typesExtend (σ σ' : Store) : Prop :=
  ∀ name c, lookupCol σ name = some c →
    ∃ c', lookupCol σ' name = some c' ∧ c'.type = c.type ∧ c'.data.length = c.data.length

/-- Key-list growth invariant of the engine: the second store's key list
extends the first store's by appended fresh names, and key distinctness is
preserved. -/
def keysGrow (σ σ' : Store) : Prop :=
  (∃ extra, storeKeys σ' = storeKeys σ ++ extra) ∧
  ((storeKeys σ).Nodup → (storeKeys σ').Nodup)

/-- Paired-run invariant: relates the evolutions σ to σ₁ and ρ to ρ₁ of the
same engine steps from two starting stores.  Each name is either untouched in
both runs, or targeted in both: then both runs hold the column with one type
and length, the selected rows agree between the runs, and each unselected row
still holds its original value, or the missing sentinel where the run created
the column. -/
def twinStep (env : Env) (σ ρ σ₁ ρ₁ : Store) : Prop :=
  ∀ name,
    (lookupCol σ₁ name = lookupCol σ name ∧ lookupCol ρ₁ name = lookupCol ρ name) ∨
    (∃ c₁ c₂,
      lookupCol σ₁ name = some c₁ ∧ lookupCol ρ₁ name = some c₂ ∧
      c₂.type = c₁.type ∧ c₂.data.length = c₁.data.length ∧
      (∀ r, r ∈ env.rows → c₂.data[r]? = c₁.data[r]?) ∧
      (∀ r, r ∉ env.rows →
        (c₁.data[r]? = cellVal σ name r ∨
          (lookupCol σ name = none ∧
            c₁.data[r]? = (List.replicate env.rowCount (missingValue c₁.type))[r]?)) ∧
        (c₂.data[r]? = cellVal ρ name r ∨
          (lookupCol ρ name = none ∧
            c₂.data[r]? = (List.replicate env.rowCount (missingValue c₂.type))[r]?))))

-- ===================== Theorems =====================

theorem mem_insertChan (x y : Int) (l : List Int) :
    y ∈ insertChan x l ↔ y = x ∨ y ∈ l := by
  induction l with
  | nil => simp [insertChan]
  | cons a ys ih =>
    simp only [insertChan]
    split_ifs with h₁ h₂
    · simp [List.mem_cons]
    · subst h₂; simp only [List.mem_cons]; tauto
    · simp [List.mem_cons, ih]; tauto

theorem sorted_insertChan (x : Int) (l : List Int) (h : l.Sorted (· < ·)) :
    (insertChan x l).Sorted (· < ·) := by
  induction l with
  | nil => simp [insertChan]
  | cons a ys ih =>
    rw [List.sorted_cons] at h
    simp only [insertChan]
    split_ifs with h₁ h₂
    · rw [List.sorted_cons]
      refine ⟨?_, List.sorted_cons.mpr h⟩
      intro b hb
      rcases List.mem_cons.mp hb with rfl | hb
      · exact h₁
      · exact lt_trans h₁ (h.1 b hb)
    · exact List.sorted_cons.mpr h
    · have hax : a < x := lt_of_le_of_ne (not_lt.mp h₁) (fun he => h₂ he.symm)
      rw [List.sorted_cons]
      refine ⟨?_, ih h.2⟩
      intro b hb
      rcases (mem_insertChan x b ys).mp hb with rfl | hb
      · exact hax
      · exact h.1 b hb

theorem channelSet_go_mem (l acc : List Int) (y : Int) :
    y ∈ l.foldl (fun s x => insertChan x s) acc ↔ y ∈ acc ∨ y ∈ l := by
  induction l generalizing acc with
  | nil => simp
  | cons a rest ih =>
    simp only [List.foldl_cons, ih, mem_insertChan, List.mem_cons]
    tauto

theorem channelSet_go_sorted (l acc : List Int) (h : acc.Sorted (· < ·)) :
    (l.foldl (fun s x => insertChan x s) acc).Sorted (· < ·) := by
  induction l generalizing acc with
  | nil => exact h
  | cons a rest ih => exact ih _ (sorted_insertChan a acc h)

theorem channelSet_mem (l : List Int) (y : Int) : y ∈ channelSet l ↔ y ∈ l := by
  simp [channelSet, channelSet_go_mem]

theorem channelSet_sorted (l : List Int) : (channelSet l).Sorted (· < ·) :=
  channelSet_go_sorted l [] (by simp)

theorem channelSet_nodup (l : List Int) : (channelSet l).Nodup :=
  (channelSet_sorted l).nodup

theorem sorted_eq_of_mem_iff (l₁ l₂ : List Int) (h₁ : l₁.Sorted (· < ·))
    (h₂ : l₂.Sorted (· < ·)) (h : ∀ x, x ∈ l₁ ↔ x ∈ l₂) : l₁ = l₂ := by
  haveI : IsAntisymm Int (· < ·) :=
    ⟨fun a b hab hba => absurd hba (not_lt.mpr hab.le)⟩
  exact List.eq_of_perm_of_sorted
    ((List.perm_ext_iff_of_nodup h₁.nodup h₂.nodup).mpr h) h₁ h₂

theorem channelSet_perm_invariant (l₁ l₂ : List Int) (h : l₁.Perm l₂) :
    channelSet l₁ = channelSet l₂ :=
  sorted_eq_of_mem_iff _ _ (channelSet_sorted l₁) (channelSet_sorted l₂)
    (fun x => by rw [channelSet_mem, channelSet_mem, h.mem_iff])

theorem channelSet_length_dedup (l : List Int) :
    (channelSet l).length = l.dedup.length := by
  have hp : (channelSet l).Perm l.dedup :=
    (List.perm_ext_iff_of_nodup (channelSet_nodup l) (List.nodup_dedup l)).mpr
      (fun x => by rw [channelSet_mem, List.mem_dedup])
  exact hp.length_eq

/-- C1 counterexample: the channel list [5, 3, 3] yields two output columns,
not three (one per list entry), and the channel list [5, 3] yields its columns
in ascending channel order, not in channel-list order. -/
theorem rttov_expansion_list_order_cex :
    (rttovVarout [5, 3, 3]).length ≠ 3 ∧
    rttovVarout [5, 3] ≠ [channelVarName 5, channelVarName 3] := by
  decide

/-- C1 (amended): for every channel list, channel expansion produces exactly
one output column per distinct channel number (duplicates collapsed), each
named deterministically from the base name and its channel number, and the
columns are emitted in strictly ascending channel order rather than in
channel-list order. -/
theorem rttov_expansion_one_col_per_distinct_channel (l : List Int) :
    ∃ cs : List Int, rttovVarout l = cs.map channelVarName ∧
      cs.Sorted (· < ·) ∧ (∀ x, x ∈ cs ↔ x ∈ l) ∧
      cs.length = l.dedup.length := by
  refine ⟨channelSet l, rfl, channelSet_sorted l, channelSet_mem l,
    channelSet_length_dedup l⟩

/-- C9: the expanded output variable list contains exactly one entry per
distinct channel number (duplicates collapsed), is emitted in strictly
ascending channel order, and is invariant under reordering of the channel
list, because the parsed channels are stored in a std::set of int and
iterated in its sorted order. -/
theorem rttov_expansion_sorted_distinct (l₁ l₂ : List Int) (h : l₁.Perm l₂) :
    rttovVarout l₁ = rttovVarout l₂ ∧
    (rttovVarout l₁).length = l₁.dedup.length ∧
    (channelSet l₁).Sorted (· < ·) ∧ (channelSet l₁).Nodup := by
  refine ⟨?_, ?_, channelSet_sorted l₁, channelSet_nodup l₁⟩
  · unfold rttovVarout
    rw [channelSet_perm_invariant l₁ l₂ h]
  · unfold rttovVarout
    rw [List.length_map]
    exact channelSet_length_dedup l₁

/-- C9 witness: instantiation at the channel lists [5, 3, 3] and [3, 5, 3]. -/
theorem rttov_expansion_sorted_distinct_witness :
    rttovVarout [5, 3, 3] = rttovVarout [3, 5, 3] ∧
    (rttovVarout [5, 3, 3]).length = ([5, 3, 3] : List Int).dedup.length ∧
    (channelSet [5, 3, 3]).Sorted (· < ·) ∧ (channelSet [5, 3, 3]).Nodup :=
  rttov_expansion_sorted_distinct [5, 3, 3] [3, 5, 3] (by decide)

/-- C10: for every channel number jj, the output variable name is exactly the
string "brightness_temperature_" followed by the decimal representation of jj
followed by a trailing underscore. -/
theorem rttov_channel_var_name (jj : Int) :
    channelVarName jj = "brightness_temperature_" ++ jj.repr ++ "_" := rfl

/-- C5: RowSelector.select returns a strictly increasing, duplicate-free
subsequence of the index range of the table; with no predicate it returns
exactly all indices, and on an empty table it returns the empty row set. -/
theorem select_strictly_increasing_subsequence (p? : Option (Nat → Bool)) (n : Nat) :
    (select p? n).Sorted (· < ·) ∧ (select p? n).Sublist (List.range n) ∧
    (∀ i ∈ select p? n, i < n) ∧ (select p? n).Nodup ∧
    select none n = List.range n ∧ select p? 0 = [] := by
  have hsorted : (select p? n).Sorted (· < ·) := by
    cases p? with
    | none => exact List.pairwise_lt_range n
    | some p => exact (List.pairwise_lt_range n).filter p
  have hsub : (select p? n).Sublist (List.range n) := by
    cases p? with
    | none => exact List.Sublist.refl _
    | some p => exact List.filter_sublist _
  refine ⟨hsorted, hsub, ?_, hsorted.nodup, rfl, ?_⟩
  · intro i hi
    exact List.mem_range.mp (hsub.subset hi)
  · cases p? <;> rfl

/-- C2: a spec providing both a literal value and a function reference, or
neither, fails with SpecConflictError, and the store is returned untouched
(the check precedes any column creation or write). -/
theorem spec_conflict_before_store_access (env : Env) (σ : Store) (s : AssignmentSpec)
    (h : (s.val ≠ none ∧ s.fnref ≠ none) ∨ (s.val = none ∧ s.fnref = none)) :
    processSpec env σ s = (σ, some AssignError.SpecConflictError) := by
  rcases h with ⟨h₁, h₂⟩ | ⟨h₁, h₂⟩
  · obtain ⟨v, hv⟩ := Option.ne_none_iff_exists.mp h₁
    obtain ⟨f, hf⟩ := Option.ne_none_iff_exists.mp h₂
    simp [processSpec, checkSource, ← hv, ← hf]
  · simp [processSpec, checkSource, h₁, h₂]

/-- C2 witness: a spec with neither value nor function fails with
SpecConflictError and leaves the store untouched. -/
theorem spec_conflict_before_store_access_witness :
    ((specNeither.val = none ∧ specNeither.fnref = none)) ∧
    processSpec envTrivial storeFlagInt specNeither =
      (storeFlagInt, some AssignError.SpecConflictError) :=
  ⟨⟨rfl, rfl⟩,
    spec_conflict_before_store_access envTrivial storeFlagInt specNeither
      (Or.inr ⟨rfl, rfl⟩)⟩

/-- C3: when the target column exists and the spec declares a different type,
processing the spec fails with TypeConflictError and the store, in particular
the existing column, is left unchanged. -/
theorem type_conflict_leaves_column_unchanged (env : Env) (σ : Store)
    (s : AssignmentSpec) (src : Source) (col : Column) (t : ValueType)
    (hch : s.channels = [])
    (hsrc : checkSource s = Except.ok src)
    (hcol : lookupCol σ s.name = some col)
    (ht : s.declType = some t)
    (hne : t ≠ col.type) :
    processSpec env σ s = (σ, some AssignError.TypeConflictError) ∧
    lookupCol (processSpec env σ s).1 s.name = some col := by
  have hmain : processSpec env σ s = (σ, some AssignError.TypeConflictError) := by
    simp only [processSpec, hsrc, targetsOf, hch]
    simp only [processTargets, processTarget, reconcile, hcol, ht, if_neg hne]
  exact ⟨hmain, by rw [hmain]; exact hcol⟩

/-- C3 witness: scenario 3, an existing Integer column flag and a spec
declaring it Float with literal value 1.0. -/
theorem type_conflict_leaves_column_unchanged_witness :
    (specFlagFloat.channels = [] ∧
     checkSource specFlagFloat = Except.ok (Source.lit ("1.0")) ∧
     lookupCol storeFlagInt specFlagFloat.name =
       some ⟨ValueType.Integer, [Value.intV 0]⟩ ∧
     specFlagFloat.declType = some ValueType.Float ∧
     ValueType.Float ≠ ValueType.Integer) ∧
    processSpec envTrivial storeFlagInt specFlagFloat =
      (storeFlagInt, some AssignError.TypeConflictError) ∧
    lookupCol (processSpec envTrivial storeFlagInt specFlagFloat).1
      specFlagFloat.name = some ⟨ValueType.Integer, [Value.intV 0]⟩ :=
  ⟨⟨rfl, rfl, rfl, rfl, by decide⟩,
    type_conflict_leaves_column_unchanged envTrivial storeFlagInt specFlagFloat
      (Source.lit ("1.0")) ⟨ValueType.Integer, [Value.intV 0]⟩ ValueType.Float
      rfl rfl rfl rfl (by decide)⟩

/-- C6: for a function-sourced assignment the external evaluator is invoked
over the full row range (its result is compared against the table row count,
not the selected-row count), and a length mismatch fails the assignment with
DimensionMismatchError. -/
theorem function_result_dimension_mismatch (env : Env) (σ : Store)
    (s : AssignmentSpec) (f : String) (p : Store × ValueType)
    (hch : s.channels = [])
    (hv : s.val = none) (hf : s.fnref = some f)
    (hrec : reconcile σ s.name s.declType env.rowCount = Except.ok p)
    (hlen : (env.evalFun f none).length ≠ env.rowCount) :
    processSpec env σ s = (p.1, some AssignError.DimensionMismatchError) := by
  obtain ⟨σ₁, t⟩ := p
  simp only [processSpec, checkSource, hv, hf, targetsOf, hch]
  simp only [processTargets, processTarget, hrec, resolveVals, if_neg hlen]

/-- C6 witness: scenario 5, an evaluator returning three values for a
five-row table. -/
theorem function_result_dimension_mismatch_witness :
    (specFunG.channels = [] ∧ specFunG.val = none ∧
     specFunG.fnref = some ("g") ∧
     reconcile [] specFunG.name specFunG.declType envFiveRows.rowCount =
       Except.ok (createCol [] ("y") ValueType.Integer 5, ValueType.Integer) ∧
     (envFiveRows.evalFun ("g") none).length ≠ envFiveRows.rowCount) ∧
    processSpec envFiveRows [] specFunG =
      (createCol [] ("y") ValueType.Integer 5,
        some AssignError.DimensionMismatchError) :=
  ⟨⟨rfl, rfl, rfl, rfl, by decide⟩,
    function_result_dimension_mismatch envFiveRows [] specFunG ("g")
      (createCol [] ("y") ValueType.Integer 5, ValueType.Integer)
      rfl rfl rfl rfl (by decide)⟩

/-- C7: the pass is fail-fast without rollback: if the specs before s all
succeed and s fails, the pass result is exactly the store reached when s
failed (all prior writes retained) with the error of s, and the specs after
s are never processed (the result does not depend on them). -/
theorem fail_fast_no_rollback (env : Env) (pre post : List AssignmentSpec)
    (s : AssignmentSpec) (σ σ₁ σ₂ : Store) (e : AssignError)
    (hpre : runPass env pre σ = (σ₁, none))
    (hs : processSpec env σ₁ s = (σ₂, some e)) :
    runPass env (pre ++ s :: post) σ = (σ₂, some e) := by
  induction pre generalizing σ with
  | nil =>
    simp only [runPass, Prod.mk.injEq] at hpre
    simp only [List.nil_append, runPass, hpre.1 ▸ hs]
  | cons a pre ih =>
    rcases hp : processSpec env σ a with ⟨σ', e?⟩
    cases e? with
    | none =>
      have hpre' : runPass env pre σ' = (σ₁, none) := by
        simpa only [runPass, hp] using hpre
      simpa only [List.cons_append, runPass, hp] using ih σ' hpre'
    | some e' =>
      have h2 : (σ', some e') = (σ₁, (none : Option AssignError)) := by
        simpa only [runPass, hp] using hpre
      exact absurd (congrArg Prod.snd h2) (by simp)

/-- C7 witness: a pass whose first spec writes column a, whose second spec
fails with a spec conflict, and whose third spec would write column c; the
pass stops at the failure and keeps the column written by the first spec. -/
theorem fail_fast_no_rollback_witness :
    (runPass envOneRow [specA1] [] =
      ([("a", ⟨ValueType.Integer, [Value.intV 1]⟩)], none) ∧
     processSpec envOneRow [("a", ⟨ValueType.Integer, [Value.intV 1]⟩)] specBad =
      ([("a", ⟨ValueType.Integer, [Value.intV 1]⟩)],
        some AssignError.SpecConflictError)) ∧
    runPass envOneRow ([specA1] ++ specBad :: [specC2lit]) [] =
      ([("a", ⟨ValueType.Integer, [Value.intV 1]⟩)],
        some AssignError.SpecConflictError) :=
  ⟨⟨by decide, by decide⟩,
    fail_fast_no_rollback envOneRow [specA1] [specC2lit] specBad []
      [("a", ⟨ValueType.Integer, [Value.intV 1]⟩)]
      [("a", ⟨ValueType.Integer, [Value.intV 1]⟩)]
      AssignError.SpecConflictError (by decide) (by decide)⟩

theorem lookupCol_append (σ σ₂ : Store) (name : String) :
    lookupCol (σ ++ σ₂) name =
      match lookupCol σ name with
      | some c => some c
      | none => lookupCol σ₂ name := by
  induction σ with
  | nil => simp [lookupCol]
  | cons e rest ih =>
    by_cases h : e.1 = name
    · simp [lookupCol, h]
    · simp [lookupCol, h, ih]

theorem lookupCol_createCol_self (σ : Store) (name : String) (t : ValueType) (n : Nat)
    (h : lookupCol σ name = none) :
    lookupCol (createCol σ name t n) name =
      some ⟨t, List.replicate n (missingValue t)⟩ := by
  rw [createCol, lookupCol_append, h]
  simp [lookupCol]

theorem lookupCol_createCol_other (σ : Store) (name nm : String) (t : ValueType) (n : Nat)
    (h : nm ≠ name) :
    lookupCol (createCol σ name t n) nm = lookupCol σ nm := by
  rw [createCol, lookupCol_append]
  cases hc : lookupCol σ nm with
  | some c => rfl
  | none =>
    simp only [lookupCol]
    exact if_neg (fun he => h he.symm)

theorem lookupCol_writeStore (σ : Store) (name nm : String) (rows : List Nat)
    (vals : List Value) :
    lookupCol (writeStore σ name rows vals) nm =
      if name = nm then (lookupCol σ nm).map (fun c => writeVals c rows vals)
      else lookupCol σ nm := by
  induction σ with
  | nil =>
    simp only [writeStore, List.map_nil, lookupCol]
    split <;> rfl
  | cons e rest ih =>
    simp only [writeStore, List.map_cons, lookupCol] at ih ⊢
    by_cases he₂ : e.1 = nm
    · rw [if_pos he₂]
      by_cases he₁ : e.1 = name
      · have hnm : name = nm := by rw [← he₁, he₂]
        rw [if_pos he₁, if_pos hnm, if_pos he₂]
        rfl
      · have hnm : ¬ name = nm := fun h => he₁ (by rw [h, he₂])
        rw [if_neg he₁, if_neg hnm, if_pos he₂]
    · rw [if_neg he₂, ih]
      by_cases hnm : name = nm
      · rw [if_pos hnm, if_pos hnm, if_neg he₂]
      · rw [if_neg hnm, if_neg hnm, if_neg he₂]

theorem foldl_set_length (rows : List Nat) (d : List Value) (f : Nat → Value) :
    (rows.foldl (fun d r => d.set r (f r)) d).length = d.length := by
  induction rows generalizing d with
  | nil => rfl
  | cons a rest ih => simp [List.foldl_cons, ih, List.length_set]

theorem foldl_set_getElem_not_mem (rows : List Nat) (d : List Value) (f : Nat → Value)
    (r : Nat) (h : r ∉ rows) :
    (rows.foldl (fun d r => d.set r (f r)) d)[r]? = d[r]? := by
  induction rows generalizing d with
  | nil => rfl
  | cons a rest ih =>
    have hr : r ∉ rest := fun hm => h (List.mem_cons_of_mem a hm)
    have ha : a ≠ r := fun he => h (he ▸ List.mem_cons_self a rest)
    simp [List.foldl_cons, ih _ hr, List.getElem?_set_ne ha]

theorem writeVals_type (c : Column) (rows : List Nat) (vals : List Value) :
    (writeVals c rows vals).type = c.type := rfl

theorem writeVals_length (c : Column) (rows : List Nat) (vals : List Value) :
    (writeVals c rows vals).data.length = c.data.length :=
  foldl_set_length rows c.data _

theorem writeVals_getElem_not_mem (c : Column) (rows : List Nat) (vals : List Value)
    (r : Nat) (h : r ∉ rows) :
    (writeVals c rows vals).data[r]? = c.data[r]? :=
  foldl_set_getElem_not_mem rows c.data _ r h

theorem cellKept_refl (n r : Nat) (σ : Store) : cellKept n r σ σ := by
  intro name
  exact ⟨fun h => Or.inl h, fun c hc => ⟨c, hc, rfl, rfl, rfl⟩⟩

theorem cellKept_trans (n r : Nat) (σ₁ σ₂ σ₃ : Store)
    (h₁ : cellKept n r σ₁ σ₂) (h₂ : cellKept n r σ₂ σ₃) :
    cellKept n r σ₁ σ₃ := by
  intro name
  constructor
  · intro hn
    rcases (h₁ name).1 hn with hn₂ | ⟨c, hc, hlen, hget⟩
    · exact (h₂ name).1 hn₂
    · obtain ⟨c', hc', hty', hlen', hget'⟩ := (h₂ name).2 c hc
      exact Or.inr ⟨c', hc', hlen' ▸ hlen, by rw [hget', hget, hty']⟩
  · intro c hc
    obtain ⟨c₂, hc₂, hty₂, hlen₂, hget₂⟩ := (h₁ name).2 c hc
    obtain ⟨c₃, hc₃, hty₃, hlen₃, hget₃⟩ := (h₂ name).2 c₂ hc₂
    exact ⟨c₃, hc₃, hty₃.trans hty₂, hlen₃.trans hlen₂, hget₃.trans hget₂⟩

theorem cellKept_createCol (n r : Nat) (σ : Store) (nm : String) (t : ValueType)
    (hr : r < n) (h : lookupCol σ nm = none) :
    cellKept n r σ (createCol σ nm t n) := by
  intro name
  constructor
  · intro hn
    by_cases he : name = nm
    · subst he
      refine Or.inr ⟨⟨t, List.replicate n (missingValue t)⟩,
        lookupCol_createCol_self σ name t n h, by simp, ?_⟩
      simp [List.getElem?_replicate, hr]
    · rw [lookupCol_createCol_other σ nm name t n he]
      exact Or.inl hn
  · intro c hc
    by_cases he : name = nm
    · subst he; rw [h] at hc; exact absurd hc (by simp)
    · rw [lookupCol_createCol_other σ nm name t n he]
      exact ⟨c, hc, rfl, rfl, rfl⟩

theorem cellKept_writeStore (n r : Nat) (σ : Store) (nm : String) (rows : List Nat)
    (vals : List Value) (hnr : r ∉ rows) :
    cellKept n r σ (writeStore σ nm rows vals) := by
  intro name
  constructor
  · intro hn
    rw [lookupCol_writeStore, hn]
    split_ifs <;> simp
  · intro c hc
    rw [lookupCol_writeStore, hc]
    split_ifs with he
    · exact ⟨writeVals c rows vals, rfl, writeVals_type c rows vals,
        writeVals_length c rows vals, writeVals_getElem_not_mem c rows vals r hnr⟩
    · exact ⟨c, rfl, rfl, rfl, rfl⟩

theorem reconcile_ok_cases (σ : Store) (name : String) (t? : Option ValueType)
    (n : Nat) (σ₁ : Store) (t : ValueType)
    (h : reconcile σ name t? n = Except.ok (σ₁, t)) :
    (lookupCol σ name = none ∧ t? = some t ∧ σ₁ = createCol σ name t n) ∨
    (∃ col, lookupCol σ name = some col ∧ σ₁ = σ ∧ t = col.type) := by
  unfold reconcile at h
  split at h
  · split at h
    · exact absurd h (by simp)
    · left
      simp only [Except.ok.injEq, Prod.mk.injEq] at h
      obtain ⟨h1, h2⟩ := h
      subst h2
      exact ⟨by assumption, rfl, h1.symm⟩
  · split at h
    · split at h
      · simp only [Except.ok.injEq, Prod.mk.injEq] at h
        exact Or.inr ⟨_, by assumption, h.1.symm, h.2.symm⟩
      · exact absurd h (by simp)
    · simp only [Except.ok.injEq, Prod.mk.injEq] at h
      exact Or.inr ⟨_, by assumption, h.1.symm, h.2.symm⟩

theorem cellKept_reconcile (env : Env) (σ : Store) (name : String)
    (t? : Option ValueType) (σ₁ : Store) (t : ValueType) (r : Nat)
    (hr : r < env.rowCount)
    (hrec : reconcile σ name t? env.rowCount = Except.ok (σ₁, t)) :
    cellKept env.rowCount r σ σ₁ := by
  rcases reconcile_ok_cases σ name t? env.rowCount σ₁ t hrec with
    ⟨hl, ht, rfl⟩ | ⟨col, hl, rfl, rfl⟩
  · exact cellKept_createCol env.rowCount r σ name t hr hl
  · exact cellKept_refl _ _ _

theorem cellKept_processTarget (env : Env) (σ : Store) (src : Source)
    (t? : Option ValueType) (tgt : String × Option Int) (r : Nat)
    (hr : r < env.rowCount) (hnr : r ∉ env.rows) :
    cellKept env.rowCount r σ (processTarget env σ src t? tgt).1 := by
  unfold processTarget
  split
  · exact cellKept_refl _ _ _
  · rename_i p σ₁ t heq
    have hk₁ : cellKept env.rowCount r σ σ₁ :=
      cellKept_reconcile env σ tgt.1 t? σ₁ t r hr heq
    split
    · exact hk₁
    · split
      · exact cellKept_trans _ _ _ _ _ hk₁
          (cellKept_writeStore env.rowCount r σ₁ tgt.1 env.rows _ hnr)
      · exact hk₁

theorem cellKept_processTargets (env : Env) (src : Source) (t? : Option ValueType)
    (tgts : List (String × Option Int)) (σ : Store) (r : Nat)
    (hr : r < env.rowCount) (hnr : r ∉ env.rows) :
    cellKept env.rowCount r σ (processTargets env src t? tgts σ).1 := by
  induction tgts generalizing σ with
  | nil => exact cellKept_refl _ _ _
  | cons tgt rest ih =>
    have hstep := cellKept_processTarget env σ src t? tgt r hr hnr
    rcases hp : processTarget env σ src t? tgt with ⟨σ₁, e?⟩
    rw [hp] at hstep
    cases e? with
    | none =>
      have : processTargets env src t? (tgt :: rest) σ =
          processTargets env src t? rest σ₁ := by
        simp [processTargets, hp]
      rw [this]
      exact cellKept_trans _ _ _ _ _ hstep (ih σ₁)
    | some e =>
      have : processTargets env src t? (tgt :: rest) σ = (σ₁, some e) := by
        simp [processTargets, hp]
      rw [this]
      exact hstep

theorem cellKept_processSpec (env : Env) (σ : Store) (s : AssignmentSpec) (r : Nat)
    (hr : r < env.rowCount) (hnr : r ∉ env.rows) :
    cellKept env.rowCount r σ (processSpec env σ s).1 := by
  unfold processSpec
  cases checkSource s with
  | error e => exact cellKept_refl _ _ _
  | ok src => exact cellKept_processTargets env src s.declType (targetsOf s) σ r hr hnr

theorem cellKept_runPass (env : Env) (specs : List AssignmentSpec) (σ : Store) (r : Nat)
    (hr : r < env.rowCount) (hnr : r ∉ env.rows) :
    cellKept env.rowCount r σ (runPass env specs σ).1 := by
  induction specs generalizing σ with
  | nil => exact cellKept_refl _ _ _
  | cons s rest ih =>
    have hstep := cellKept_processSpec env σ s r hr hnr
    rcases hp : processSpec env σ s with ⟨σ₁, e?⟩
    rw [hp] at hstep
    cases e? with
    | none =>
      have : runPass env (s :: rest) σ = runPass env rest σ₁ := by
        simp [runPass, hp]
      rw [this]
      exact cellKept_trans _ _ _ _ _ hstep (ih σ₁)
    | some e =>
      have : runPass env (s :: rest) σ = (σ₁, some e) := by
        simp [runPass, hp]
      rw [this]
      exact hstep

/-- C4: every column newly created by an assignment pass has, after the pass,
exactly the missing-value sentinel of its type at every valid row index that
is not in the selected row set (and the column has full table length), so no
row of a created column is left uninitialized. -/
theorem created_column_missing_filled (env : Env) (specs : List AssignmentSpec)
    (σ τ : Store) (e? : Option AssignError) (name : String) (col : Column) (r : Nat)
    (hrun : runPass env specs σ = (τ, e?))
    (habsent : lookupCol σ name = none)
    (hcol : lookupCol τ name = some col)
    (hr : r < env.rowCount) (hnr : r ∉ env.rows) :
    col.data[r]? = some (missingValue col.type) ∧ col.data.length = env.rowCount := by
  have hk := cellKept_runPass env specs σ r hr hnr
  rw [hrun] at hk
  rcases (hk name).1 habsent with hnone | ⟨c, hc, hlen, hget⟩
  · rw [hcol] at hnone; exact absurd hnone (by simp)
  · rw [hcol] at hc
    injection hc with h
    subst h
    exact ⟨hget, hlen⟩

/-- C4 witness: scenario 2, a four-row table with rows 1 and 2 selected and a
created Integer column flag; row 3 holds the Integer missing sentinel. -/
theorem created_column_missing_filled_witness :
    (runPass envFourRows [specFlag2] [] =
      ([("flag", ⟨ValueType.Integer,
          [Value.missingOf ValueType.Integer, Value.intV 2, Value.intV 2,
           Value.missingOf ValueType.Integer]⟩)], none) ∧
     lookupCol [] ("flag") = none ∧
     (3 : Nat) < envFourRows.rowCount ∧ (3 : Nat) ∉ envFourRows.rows) ∧
    ([Value.missingOf ValueType.Integer, Value.intV 2, Value.intV 2,
      Value.missingOf ValueType.Integer][3]? =
        some (missingValue ValueType.Integer) ∧
     ([Value.missingOf ValueType.Integer, Value.intV 2, Value.intV 2,
       Value.missingOf ValueType.Integer] : List Value).length =
        envFourRows.rowCount) :=
  ⟨⟨by decide, rfl, by decide, by decide⟩,
    created_column_missing_filled envFourRows [specFlag2] []
      [("flag", ⟨ValueType.Integer,
        [Value.missingOf ValueType.Integer, Value.intV 2, Value.intV 2,
         Value.missingOf ValueType.Integer]⟩)] none ("flag")
      ⟨ValueType.Integer,
        [Value.missingOf ValueType.Integer, Value.intV 2, Value.intV 2,
         Value.missingOf ValueType.Integer]⟩ 3
      (by decide) rfl (by decide) (by decide) (by decide)⟩

theorem storeKeys_cons (e : String × Column) (σ : Store) :
    storeKeys (e :: σ) = e.1 :: storeKeys σ := rfl

theorem lookupCol_none_iff (σ : Store) (name : String) :
    lookupCol σ name = none ↔ name ∉ storeKeys σ := by
  induction σ with
  | nil => simp [lookupCol, storeKeys]
  | cons e rest ih =>
    rw [storeKeys_cons, List.mem_cons]
    by_cases h : e.1 = name
    · simp [lookupCol, h]
    · rw [lookupCol, if_neg h, ih]
      constructor
      · intro hnm hor
        rcases hor with he | hm
        · exact h he.symm
        · exact hnm hm
      · intro hn hm
        exact hn (Or.inr hm)

theorem lookupCol_isSome_iff (σ : Store) (name : String) :
    (lookupCol σ name).isSome ↔ name ∈ storeKeys σ := by
  cases hl : lookupCol σ name with
  | none =>
    simp only [Option.isSome_none, Bool.false_eq_true, false_iff]
    exact (lookupCol_none_iff σ name).mp hl
  | some c =>
    simp only [Option.isSome_some, true_iff]
    by_contra hm
    have := (lookupCol_none_iff σ name).mpr hm
    rw [hl] at this
    exact absurd this (by simp)

theorem storeKeys_writeStore (σ : Store) (name : String) (rows : List Nat)
    (vals : List Value) :
    storeKeys (writeStore σ name rows vals) = storeKeys σ := by
  induction σ with
  | nil => rfl
  | cons e rest ih => simp [writeStore, storeKeys] at ih ⊢; try exact ih

theorem storeKeys_createCol (σ : Store) (name : String) (t : ValueType) (n : Nat) :
    storeKeys (createCol σ name t n) = storeKeys σ ++ [name] := by
  simp [createCol, storeKeys]

theorem storeExt (σ₁ σ₂ : Store) (hk : storeKeys σ₁ = storeKeys σ₂)
    (hnd : (storeKeys σ₁).Nodup)
    (hl : ∀ name, lookupCol σ₁ name = lookupCol σ₂ name) : σ₁ = σ₂ := by
  induction σ₁ generalizing σ₂ with
  | nil =>
    cases σ₂ with
    | nil => rfl
    | cons e r => exact absurd hk (by simp [storeKeys])
  | cons e₁ r₁ ih =>
    cases σ₂ with
    | nil => exact absurd hk (by simp [storeKeys])
    | cons e₂ r₂ =>
      rw [storeKeys_cons, storeKeys_cons] at hk
      have hfst : e₁.1 = e₂.1 := by injection hk
      have hrest : storeKeys r₁ = storeKeys r₂ := by injection hk
      have hval : e₁.2 = e₂.2 := by
        have h := hl e₁.1
        rw [lookupCol, if_pos rfl, lookupCol, if_pos hfst.symm] at h
        injection h
      rw [storeKeys_cons, List.nodup_cons] at hnd
      have hnotmem : e₁.1 ∉ storeKeys r₁ := hnd.1
      have hnd' : (storeKeys r₁).Nodup := hnd.2
      have hl' : ∀ name, lookupCol r₁ name = lookupCol r₂ name := by
        intro name
        by_cases he : name = e₁.1
        · have h1 : lookupCol r₁ name = none :=
            (lookupCol_none_iff r₁ name).mpr (by rw [he]; exact hnotmem)
          have h2 : lookupCol r₂ name = none :=
            (lookupCol_none_iff r₂ name).mpr (by rw [he, ← hrest]; exact hnotmem)
          rw [h1, h2]
        · have hne₁ : ¬ e₁.1 = name := fun hh => he hh.symm
          have hne₂ : ¬ e₂.1 = name := fun hh => he (by rw [hfst]; exact hh.symm)
          have h := hl name
          rw [lookupCol, if_neg hne₁, lookupCol, if_neg hne₂] at h
          exact h
      have : e₁ = e₂ := Prod.ext hfst hval
      rw [this, ih r₂ hrest hnd' hl']

theorem foldl_set_getElem_mem (rows : List Nat) (d : List Value) (f : Nat → Value)
    (r : Nat) (h : r ∈ rows) :
    (rows.foldl (fun d r => d.set r (f r)) d)[r]? =
      if r < d.length then some (f r) else none := by
  induction rows generalizing d with
  | nil => exact absurd h (by simp)
  | cons a rest ih =>
    rw [List.foldl_cons]
    by_cases hr : r ∈ rest
    · rw [ih _ hr, List.length_set]
    · have ha : a = r := by
        rcases List.mem_cons.mp h with he | hm
        · exact he.symm
        · exact absurd hm hr
      subst ha
      rw [foldl_set_getElem_not_mem rest _ f a hr, List.getElem?_set, if_pos rfl]

theorem writeVals_getElem_mem (c : Column) (rows : List Nat) (vals : List Value)
    (r : Nat) (h : r ∈ rows) :
    (writeVals c rows vals).data[r]? =
      if r < c.data.length then some (vals.getD r (missingValue c.type))
      else none :=
  foldl_set_getElem_mem rows c.data _ r h

theorem typesExtend_refl (σ : Store) : typesExtend σ σ :=
  fun _ c hc => ⟨c, hc, rfl, rfl⟩

theorem typesExtend_trans (σ₁ σ₂ σ₃ : Store) (h₁ : typesExtend σ₁ σ₂)
    (h₂ : typesExtend σ₂ σ₃) : typesExtend σ₁ σ₃ := by
  intro name c hc
  obtain ⟨c₂, hc₂, ht₂, hl₂⟩ := h₁ name c hc
  obtain ⟨c₃, hc₃, ht₃, hl₃⟩ := h₂ name c₂ hc₂
  exact ⟨c₃, hc₃, ht₃.trans ht₂, hl₃.trans hl₂⟩

theorem typesExtend_writeStore (σ : Store) (name : String) (rows : List Nat)
    (vals : List Value) : typesExtend σ (writeStore σ name rows vals) := by
  intro nm c hc
  rw [lookupCol_writeStore, hc]
  split_ifs with h
  · exact ⟨writeVals c rows vals, rfl, rfl, writeVals_length c rows vals⟩
  · exact ⟨c, rfl, rfl, rfl⟩

theorem typesExtend_createCol (σ : Store) (name : String) (t : ValueType) (n : Nat) :
    typesExtend σ (createCol σ name t n) := by
  intro nm c hc
  rw [createCol, lookupCol_append, hc]
  exact ⟨c, rfl, rfl, rfl⟩

theorem keysGrow_refl (σ : Store) : keysGrow σ σ :=
  ⟨⟨[], (List.append_nil _).symm⟩, fun h => h⟩

theorem keysGrow_trans (σ₁ σ₂ σ₃ : Store) (h₁ : keysGrow σ₁ σ₂)
    (h₂ : keysGrow σ₂ σ₃) : keysGrow σ₁ σ₃ := by
  obtain ⟨⟨x₁, hx₁⟩, hn₁⟩ := h₁
  obtain ⟨⟨x₂, hx₂⟩, hn₂⟩ := h₂
  exact ⟨⟨x₁ ++ x₂, by rw [hx₂, hx₁, List.append_assoc]⟩, fun h => hn₂ (hn₁ h)⟩

theorem keysGrow_writeStore (σ : Store) (name : String) (rows : List Nat)
    (vals : List Value) : keysGrow σ (writeStore σ name rows vals) := by
  rw [keysGrow, storeKeys_writeStore]
  exact ⟨⟨[], (List.append_nil _).symm⟩, fun h => h⟩

theorem keysGrow_createCol (σ : Store) (name : String) (t : ValueType) (n : Nat)
    (h : lookupCol σ name = none) : keysGrow σ (createCol σ name t n) := by
  rw [keysGrow, storeKeys_createCol]
  refine ⟨⟨[name], rfl⟩, fun hnd => ?_⟩
  rw [List.nodup_append]
  refine ⟨hnd, List.nodup_singleton name, ?_⟩
  intro a ha hb
  rw [List.mem_singleton] at hb
  subst hb
  exact (lookupCol_none_iff σ a).mp h ha

theorem reconcile_ok_declType (σ : Store) (name : String) (t? : Option ValueType)
    (n : Nat) (σ₁ : Store) (t : ValueType)
    (h : reconcile σ name t? n = Except.ok (σ₁, t)) :
    ∀ t₀, t? = some t₀ → t₀ = t := by
  intro t₀ ht₀
  subst ht₀
  unfold reconcile at h
  split at h
  · split at h
    · exact absurd h (by simp)
    · rename_i heq
      injection heq with heq
      simp only [Except.ok.injEq, Prod.mk.injEq] at h
      rw [heq, h.2]
  · split at h
    · split at h
      · rename_i heq hif
        injection heq with heq
        simp only [Except.ok.injEq, Prod.mk.injEq] at h
        rw [heq, hif, h.2]
      · exact absurd h (by simp)
    · rename_i heq
      exact absurd heq (by simp)

theorem processTarget_ok_elim (env : Env) (σ : Store) (src : Source)
    (t? : Option ValueType) (tgt : String × Option Int) (σa : Store)
    (h : processTarget env σ src t? tgt = (σa, none)) :
    ∃ σ₁ t vals,
      reconcile σ tgt.1 t? env.rowCount = Except.ok (σ₁, t) ∧
      resolveVals env src tgt.2 t = Except.ok vals ∧
      env.rows.all (fun r => r < env.rowCount) = true ∧
      σa = writeStore σ₁ tgt.1 env.rows vals := by
  unfold processTarget at h
  split at h
  · exact absurd (congrArg Prod.snd h) (by simp)
  · rename_i p σ₁ t heq
    split at h
    · exact absurd (congrArg Prod.snd h) (by simp)
    · rename_i vals hres
      split at h
      · rename_i hall
        exact ⟨σ₁, t, vals, heq, hres, hall, (congrArg Prod.fst h).symm⟩
      · exact absurd (congrArg Prod.snd h) (by simp)

theorem typesExtend_processTarget (env : Env) (σ : Store) (src : Source)
    (t? : Option ValueType) (tgt : String × Option Int) (σa : Store)
    (h : processTarget env σ src t? tgt = (σa, none)) : typesExtend σ σa := by
  obtain ⟨σ₁, t, vals, hrec, hres, hall, rfl⟩ :=
    processTarget_ok_elim env σ src t? tgt σa h
  have h₁ : typesExtend σ σ₁ := by
    rcases reconcile_ok_cases σ tgt.1 t? env.rowCount σ₁ t hrec with
      ⟨hl, ht, rfl⟩ | ⟨col, hl, rfl, rfl⟩
    · exact typesExtend_createCol σ tgt.1 t env.rowCount
    · exact typesExtend_refl _
  exact typesExtend_trans _ _ _ h₁ (typesExtend_writeStore σ₁ tgt.1 env.rows vals)

theorem keysGrow_processTarget (env : Env) (σ : Store) (src : Source)
    (t? : Option ValueType) (tgt : String × Option Int) (σa : Store)
    (h : processTarget env σ src t? tgt = (σa, none)) : keysGrow σ σa := by
  obtain ⟨σ₁, t, vals, hrec, hres, hall, rfl⟩ :=
    processTarget_ok_elim env σ src t? tgt σa h
  have h₁ : keysGrow σ σ₁ := by
    rcases reconcile_ok_cases σ tgt.1 t? env.rowCount σ₁ t hrec with
      ⟨hl, ht, rfl⟩ | ⟨col, hl, rfl, rfl⟩
    · exact keysGrow_createCol σ tgt.1 t env.rowCount hl
    · exact keysGrow_refl _
  exact keysGrow_trans _ _ _ h₁ (keysGrow_writeStore σ₁ tgt.1 env.rows vals)

theorem processTargets_cons_ok (env : Env) (src : Source) (t? : Option ValueType)
    (tgt : String × Option Int) (rest : List (String × Option Int)) (σ σ₁ : Store)
    (h : processTargets env src t? (tgt :: rest) σ = (σ₁, none)) :
    ∃ σa, processTarget env σ src t? tgt = (σa, none) ∧
      processTargets env src t? rest σa = (σ₁, none) := by
  rcases hp : processTarget env σ src t? tgt with ⟨σa, e?⟩
  cases e? with
  | none =>
    refine ⟨σa, rfl, ?_⟩
    simpa only [processTargets, hp] using h
  | some e =>
    have h2 : ((σa, some e) : Store × Option AssignError) = (σ₁, none) := by
      simpa only [processTargets, hp] using h
    exact absurd (congrArg Prod.snd h2) (by simp)

theorem typesExtend_processTargets (env : Env) (src : Source) (t? : Option ValueType)
    (tgts : List (String × Option Int)) (σ σ₁ : Store)
    (h : processTargets env src t? tgts σ = (σ₁, none)) : typesExtend σ σ₁ := by
  induction tgts generalizing σ with
  | nil =>
    have : σ = σ₁ := congrArg Prod.fst h
    rw [← this]; exact typesExtend_refl σ
  | cons tgt rest ih =>
    obtain ⟨σa, hp, hrest⟩ := processTargets_cons_ok env src t? tgt rest σ σ₁ h
    exact typesExtend_trans _ _ _
      (typesExtend_processTarget env σ src t? tgt σa hp) (ih σa hrest)

theorem keysGrow_processTargets (env : Env) (src : Source) (t? : Option ValueType)
    (tgts : List (String × Option Int)) (σ σ₁ : Store)
    (h : processTargets env src t? tgts σ = (σ₁, none)) : keysGrow σ σ₁ := by
  induction tgts generalizing σ with
  | nil =>
    have : σ = σ₁ := congrArg Prod.fst h
    rw [← this]; exact keysGrow_refl σ
  | cons tgt rest ih =>
    obtain ⟨σa, hp, hrest⟩ := processTargets_cons_ok env src t? tgt rest σ σ₁ h
    exact keysGrow_trans _ _ _
      (keysGrow_processTarget env σ src t? tgt σa hp) (ih σa hrest)

theorem processSpec_ok_elim (env : Env) (σ : Store) (s : AssignmentSpec) (σ₁ : Store)
    (h : processSpec env σ s = (σ₁, none)) :
    ∃ src, checkSource s = Except.ok src ∧
      processTargets env src s.declType (targetsOf s) σ = (σ₁, none) := by
  unfold processSpec at h
  split at h
  · exact absurd (congrArg Prod.snd h) (by simp)
  · rename_i src hsrc
    exact ⟨src, hsrc, h⟩

theorem typesExtend_processSpec (env : Env) (σ : Store) (s : AssignmentSpec)
    (σ₁ : Store) (h : processSpec env σ s = (σ₁, none)) : typesExtend σ σ₁ := by
  obtain ⟨src, hsrc, h⟩ := processSpec_ok_elim env σ s σ₁ h
  exact typesExtend_processTargets env src s.declType (targetsOf s) σ σ₁ h

theorem keysGrow_processSpec (env : Env) (σ : Store) (s : AssignmentSpec)
    (σ₁ : Store) (h : processSpec env σ s = (σ₁, none)) : keysGrow σ σ₁ := by
  obtain ⟨src, hsrc, h⟩ := processSpec_ok_elim env σ s σ₁ h
  exact keysGrow_processTargets env src s.declType (targetsOf s) σ σ₁ h

theorem runPass_cons_ok (env : Env) (s : AssignmentSpec) (rest : List AssignmentSpec)
    (σ τ : Store) (h : runPass env (s :: rest) σ = (τ, none)) :
    ∃ σ₁, processSpec env σ s = (σ₁, none) ∧ runPass env rest σ₁ = (τ, none) := by
  rcases hp : processSpec env σ s with ⟨σ₁, e?⟩
  cases e? with
  | none =>
    refine ⟨σ₁, rfl, ?_⟩
    simpa only [runPass, hp] using h
  | some e =>
    have h2 : ((σ₁, some e) : Store × Option AssignError) = (τ, none) := by
      simpa only [runPass, hp] using h
    exact absurd (congrArg Prod.snd h2) (by simp)

theorem typesExtend_runPass (env : Env) (specs : List AssignmentSpec) (σ τ : Store)
    (h : runPass env specs σ = (τ, none)) : typesExtend σ τ := by
  induction specs generalizing σ with
  | nil =>
    have : σ = τ := congrArg Prod.fst h
    rw [← this]; exact typesExtend_refl σ
  | cons s rest ih =>
    obtain ⟨σ₁, hp, hrest⟩ := runPass_cons_ok env s rest σ τ h
    exact typesExtend_trans _ _ _ (typesExtend_processSpec env σ s σ₁ hp) (ih σ₁ hrest)

theorem keysGrow_runPass (env : Env) (specs : List AssignmentSpec) (σ τ : Store)
    (h : runPass env specs σ = (τ, none)) : keysGrow σ τ := by
  induction specs generalizing σ with
  | nil =>
    have : σ = τ := congrArg Prod.fst h
    rw [← this]; exact keysGrow_refl σ
  | cons s rest ih =>
    obtain ⟨σ₁, hp, hrest⟩ := runPass_cons_ok env s rest σ τ h
    exact keysGrow_trans _ _ _ (keysGrow_processSpec env σ s σ₁ hp) (ih σ₁ hrest)

theorem twinStep_refl (env : Env) (σ ρ : Store) : twinStep env σ ρ σ ρ :=
  fun _ => Or.inl ⟨rfl, rfl⟩

theorem twin_comp (env : Env) (σ ρ σa ρa σ₁ ρ₁ : Store)
    (T1 : twinStep env σ ρ σa ρa) (T2 : twinStep env σa ρa σ₁ ρ₁)
    (E1 : typesExtend σa σ₁) (E2 : typesExtend ρa ρ₁) :
    twinStep env σ ρ σ₁ ρ₁ := by
  intro name
  rcases T2 name with ⟨h21, h22⟩ | ⟨c₁, c₂, hc₁, hc₂, hty, hlen, hrows, hnrows⟩
  · rcases T1 name with ⟨h11, h12⟩ | ⟨d₁, d₂, hd₁, hd₂, htyd, hlend, hrowsd, hnrowsd⟩
    · exact Or.inl ⟨h21.trans h11, h22.trans h12⟩
    · exact Or.inr ⟨d₁, d₂, h21.trans hd₁, h22.trans hd₂, htyd, hlend, hrowsd, hnrowsd⟩
  · refine Or.inr ⟨c₁, c₂, hc₁, hc₂, hty, hlen, hrows, ?_⟩
    intro r hr
    obtain ⟨hs, hrho⟩ := hnrows r hr
    constructor
    · rcases hs with hs | ⟨habs, hrep⟩
      · rcases T1 name with ⟨h11, h12⟩ | ⟨d₁, d₂, hd₁, hd₂, htyd, hlend, hrowsd, hnrowsd⟩
        · left
          rw [hs]
          unfold cellVal
          rw [h11]
        · unfold cellVal at hs
          rw [hd₁, Option.some_bind] at hs
          rcases (hnrowsd r hr).1 with hd | ⟨habsd, hrepd⟩
          · left; rw [hs, hd]
          · right
            refine ⟨habsd, ?_⟩
            obtain ⟨c₁', hc₁', hty₁', hlen₁'⟩ := E1 name d₁ hd₁
            rw [hc₁] at hc₁'
            injection hc₁' with hcc
            have hct : c₁.type = d₁.type := by rw [hcc]; exact hty₁'
            rw [hs, hrepd, hct]
      · rcases T1 name with ⟨h11, h12⟩ | ⟨d₁, d₂, hd₁, hd₂, htyd, hlend, hrowsd, hnrowsd⟩
        · exact Or.inr ⟨h11.symm.trans habs, hrep⟩
        · rw [hd₁] at habs
          exact absurd habs (by simp)
    · rcases hrho with hs | ⟨habs, hrep⟩
      · rcases T1 name with ⟨h11, h12⟩ | ⟨d₁, d₂, hd₁, hd₂, htyd, hlend, hrowsd, hnrowsd⟩
        · left
          rw [hs]
          unfold cellVal
          rw [h12]
        · unfold cellVal at hs
          rw [hd₂, Option.some_bind] at hs
          rcases (hnrowsd r hr).2 with hd | ⟨habsd, hrepd⟩
          · left; rw [hs, hd]
          · right
            refine ⟨habsd, ?_⟩
            obtain ⟨c₂', hc₂', hty₂', hlen₂'⟩ := E2 name d₂ hd₂
            rw [hc₂] at hc₂'
            injection hc₂' with hcc
            have hct : c₂.type = d₂.type := by rw [hcc]; exact hty₂'
            rw [hs, hrepd, hct]
      · rcases T1 name with ⟨h11, h12⟩ | ⟨d₁, d₂, hd₁, hd₂, htyd, hlend, hrowsd, hnrowsd⟩
        · exact Or.inr ⟨h12.symm.trans habs, hrep⟩
        · rw [hd₂] at habs
          exact absurd habs (by simp)

theorem lookupCol_writeStore_other (σ : Store) (name nm : String) (rows : List Nat)
    (vals : List Value) (h : nm ≠ name) :
    lookupCol (writeStore σ name rows vals) nm = lookupCol σ nm := by
  rw [lookupCol_writeStore, if_neg (fun hh => h hh.symm)]

theorem lookupCol_writeStore_self (σ : Store) (name : String) (rows : List Nat)
    (vals : List Value) (c : Column) (h : lookupCol σ name = some c) :
    lookupCol (writeStore σ name rows vals) name = some (writeVals c rows vals) := by
  rw [lookupCol_writeStore, if_pos rfl, h]
  rfl

theorem processTarget_pair (env : Env) (σ ρ τ : Store) (src : Source)
    (t? : Option ValueType) (tgt : String × Option Int) (σa : Store)
    (h : processTarget env σ src t? tgt = (σa, none))
    (hσρ : typesExtend σ ρ)
    (hρτ : typesExtend ρ τ)
    (hσaτ : typesExtend σa τ) :
    ∃ ρa, processTarget env ρ src t? tgt = (ρa, none) ∧
      typesExtend σa ρa ∧ typesExtend ρa τ ∧ twinStep env σ ρ σa ρa := by
  obtain ⟨σ₁, t, vals, hrec, hres, hall, rfl⟩ :=
    processTarget_ok_elim env σ src t? tgt σa h
  rcases reconcile_ok_cases σ tgt.1 t? env.rowCount σ₁ t hrec with
    ⟨hl, ht, rfl⟩ | ⟨col, hl, rfl, rfl⟩
  · -- run 1 created the target column with declared type t
    have hcreate : lookupCol (createCol σ tgt.1 t env.rowCount) tgt.1 =
        some ⟨t, List.replicate env.rowCount (missingValue t)⟩ :=
      lookupCol_createCol_self σ tgt.1 t env.rowCount hl
    have hc₁ : lookupCol (writeStore (createCol σ tgt.1 t env.rowCount) tgt.1 env.rows vals) tgt.1 =
        some (writeVals ⟨t, List.replicate env.rowCount (missingValue t)⟩ env.rows vals) :=
      lookupCol_writeStore_self _ tgt.1 env.rows vals _ hcreate
    have hother : ∀ nm, nm ≠ tgt.1 →
        lookupCol (writeStore (createCol σ tgt.1 t env.rowCount) tgt.1 env.rows vals) nm =
          lookupCol σ nm := by
      intro nm hnm
      rw [lookupCol_writeStore_other _ tgt.1 nm env.rows vals hnm,
        lookupCol_createCol_other σ tgt.1 nm t env.rowCount hnm]
    obtain ⟨cτ, hcτ, htyτ, hlenτ⟩ := hσaτ tgt.1 _ hc₁
    have htyτ' : cτ.type = t := by rw [htyτ, writeVals_type]
    have hlenτ' : cτ.data.length = env.rowCount := by
      rw [hlenτ, writeVals_length]
      simp [List.length_replicate]
    cases hlρ : lookupCol ρ tgt.1 with
    | none =>
      -- run 2 also creates the column
      have hrec₂ : reconcile ρ tgt.1 t? env.rowCount =
          Except.ok (createCol ρ tgt.1 t env.rowCount, t) := by
        simp [reconcile, hlρ, ht]
      have hρa : processTarget env ρ src t? tgt =
          (writeStore (createCol ρ tgt.1 t env.rowCount) tgt.1 env.rows vals, none) := by
        simp [processTarget, hrec₂, hres, hall]
      have hcreate₂ : lookupCol (createCol ρ tgt.1 t env.rowCount) tgt.1 =
          some ⟨t, List.replicate env.rowCount (missingValue t)⟩ :=
        lookupCol_createCol_self ρ tgt.1 t env.rowCount hlρ
      have hc₂ : lookupCol (writeStore (createCol ρ tgt.1 t env.rowCount) tgt.1 env.rows vals) tgt.1 =
          some (writeVals ⟨t, List.replicate env.rowCount (missingValue t)⟩ env.rows vals) :=
        lookupCol_writeStore_self _ tgt.1 env.rows vals _ hcreate₂
      have hother₂ : ∀ nm, nm ≠ tgt.1 →
          lookupCol (writeStore (createCol ρ tgt.1 t env.rowCount) tgt.1 env.rows vals) nm =
            lookupCol ρ nm := by
        intro nm hnm
        rw [lookupCol_writeStore_other _ tgt.1 nm env.rows vals hnm,
          lookupCol_createCol_other ρ tgt.1 nm t env.rowCount hnm]
      refine ⟨_, hρa, ?_, ?_, ?_⟩
      · -- typesExtend σa ρa
        intro nm c hc
        by_cases hnm : nm = tgt.1
        · subst hnm
          rw [hc₁] at hc
          injection hc with hc
          subst hc
          exact ⟨_, hc₂, rfl, rfl⟩
        · rw [hother nm hnm] at hc
          obtain ⟨c', hc', hty', hlen'⟩ := hσρ nm c hc
          exact ⟨c', by rw [hother₂ nm hnm]; exact hc', hty', hlen'⟩
      · -- typesExtend ρa τ
        intro nm c hc
        by_cases hnm : nm = tgt.1
        · subst hnm
          rw [hc₂] at hc
          injection hc with hc
          subst hc
          exact ⟨cτ, hcτ, htyτ, hlenτ⟩
        · rw [hother₂ nm hnm] at hc
          exact hρτ nm c hc
      · -- twinStep
        intro nm
        by_cases hnm : nm = tgt.1
        · subst hnm
          refine Or.inr ⟨_, _, hc₁, hc₂, rfl, rfl, fun r hr => rfl, ?_⟩
          intro r hrn
          constructor
          · right
            exact ⟨hl, writeVals_getElem_not_mem _ env.rows vals r hrn⟩
          · right
            exact ⟨hlρ, writeVals_getElem_not_mem _ env.rows vals r hrn⟩
        · exact Or.inl ⟨hother nm hnm, hother₂ nm hnm⟩
    | some c =>
      -- run 2 finds the column, with the type and length forced by the store τ
      obtain ⟨cτ', hcτ', htyc, hlenc⟩ := hρτ tgt.1 c hlρ
      have hceq : cτ = cτ' := by
        rw [hcτ] at hcτ'
        injection hcτ'
      have hct : c.type = t := by rw [← htyc, ← hceq, htyτ']
      have hclen : c.data.length = env.rowCount := by rw [← hlenc, ← hceq, hlenτ']
      have hrec₂ : reconcile ρ tgt.1 t? env.rowCount = Except.ok (ρ, c.type) := by
        rw [ht]
        simp [reconcile, hlρ, hct]
      have hρa : processTarget env ρ src t? tgt =
          (writeStore ρ tgt.1 env.rows vals, none) := by
        simp [processTarget, hrec₂, hct, hres, hall]
      have hc₂ : lookupCol (writeStore ρ tgt.1 env.rows vals) tgt.1 =
          some (writeVals c env.rows vals) :=
        lookupCol_writeStore_self ρ tgt.1 env.rows vals c hlρ
      have hother₂ : ∀ nm, nm ≠ tgt.1 →
          lookupCol (writeStore ρ tgt.1 env.rows vals) nm = lookupCol ρ nm :=
        fun nm hnm => lookupCol_writeStore_other ρ tgt.1 nm env.rows vals hnm
      have hty₂₁ : (writeVals c env.rows vals).type =
          (writeVals ⟨t, List.replicate env.rowCount (missingValue t)⟩ env.rows vals).type := by
        rw [writeVals_type, writeVals_type, hct]
      have hlen₂₁ : (writeVals c env.rows vals).data.length =
          (writeVals ⟨t, List.replicate env.rowCount (missingValue t)⟩ env.rows vals).data.length := by
        rw [writeVals_length, writeVals_length, hclen]
        simp [List.length_replicate]
      refine ⟨_, hρa, ?_, ?_, ?_⟩
      · -- typesExtend σa ρa
        intro nm c₀ hc
        by_cases hnm : nm = tgt.1
        · subst hnm
          rw [hc₁] at hc
          injection hc with hc
          subst hc
          exact ⟨_, hc₂, hty₂₁, hlen₂₁⟩
        · rw [hother nm hnm] at hc
          obtain ⟨c', hc', hty', hlen'⟩ := hσρ nm c₀ hc
          exact ⟨c', by rw [hother₂ nm hnm]; exact hc', hty', hlen'⟩
      · -- typesExtend ρa τ
        intro nm c₀ hc
        by_cases hnm : nm = tgt.1
        · subst hnm
          rw [hc₂] at hc
          injection hc with hc
          subst hc
          refine ⟨cτ, hcτ, ?_, ?_⟩
          · rw [writeVals_type, htyτ', hct]
          · rw [writeVals_length, hlenτ', hclen]
        · rw [hother₂ nm hnm] at hc
          exact hρτ nm c₀ hc
      · -- twinStep
        intro nm
        by_cases hnm : nm = tgt.1
        · subst hnm
          refine Or.inr ⟨_, _, hc₁, hc₂, hty₂₁, hlen₂₁, ?_, ?_⟩
          · intro r hr
            rw [writeVals_getElem_mem c env.rows vals r hr,
              writeVals_getElem_mem _ env.rows vals r hr]
            rw [hclen, hct]
            simp [List.length_replicate, missingValue]
          · intro r hrn
            constructor
            · right
              exact ⟨hl, writeVals_getElem_not_mem _ env.rows vals r hrn⟩
            · left
              unfold cellVal
              rw [hlρ, Option.some_bind]
              exact writeVals_getElem_not_mem c env.rows vals r hrn
        · exact Or.inl ⟨hother nm hnm, hother₂ nm hnm⟩
  · -- run 1 found an existing column col
    have hc₁ : lookupCol (writeStore σ₁ tgt.1 env.rows vals) tgt.1 =
        some (writeVals col env.rows vals) :=
      lookupCol_writeStore_self σ₁ tgt.1 env.rows vals col hl
    have hother : ∀ nm, nm ≠ tgt.1 →
        lookupCol (writeStore σ₁ tgt.1 env.rows vals) nm = lookupCol σ₁ nm :=
      fun nm hnm => lookupCol_writeStore_other σ₁ tgt.1 nm env.rows vals hnm
    obtain ⟨c, hlρc, htyc, hlenc⟩ := hσρ tgt.1 col hl
    have hrec₂ : reconcile ρ tgt.1 t? env.rowCount = Except.ok (ρ, c.type) := by
      cases ht : t? with
      | none => simp [reconcile, hlρc, ht]
      | some t₀ =>
        have ht₀ : t₀ = col.type :=
          reconcile_ok_declType σ₁ tgt.1 t? env.rowCount σ₁ col.type hrec t₀ ht
        simp [reconcile, hlρc, ht, ht₀, htyc]
    have hρa : processTarget env ρ src t? tgt =
        (writeStore ρ tgt.1 env.rows vals, none) := by
      simp [processTarget, hrec₂, htyc, hres, hall]
    have hc₂ : lookupCol (writeStore ρ tgt.1 env.rows vals) tgt.1 =
        some (writeVals c env.rows vals) :=
      lookupCol_writeStore_self ρ tgt.1 env.rows vals c hlρc
    have hother₂ : ∀ nm, nm ≠ tgt.1 →
        lookupCol (writeStore ρ tgt.1 env.rows vals) nm = lookupCol ρ nm :=
      fun nm hnm => lookupCol_writeStore_other ρ tgt.1 nm env.rows vals hnm
    have hty₂₁ : (writeVals c env.rows vals).type = (writeVals col env.rows vals).type := by
      rw [writeVals_type, writeVals_type, htyc]
    have hlen₂₁ : (writeVals c env.rows vals).data.length =
        (writeVals col env.rows vals).data.length := by
      rw [writeVals_length, writeVals_length, hlenc]
    refine ⟨_, hρa, ?_, ?_, ?_⟩
    · -- typesExtend σa ρa
      intro nm c₀ hc
      by_cases hnm : nm = tgt.1
      · subst hnm
        rw [hc₁] at hc
        injection hc with hc
        subst hc
        exact ⟨_, hc₂, hty₂₁, hlen₂₁⟩
      · rw [hother nm hnm] at hc
        obtain ⟨c', hc', hty', hlen'⟩ := hσρ nm c₀ hc
        exact ⟨c', by rw [hother₂ nm hnm]; exact hc', hty', hlen'⟩
    · -- typesExtend ρa τ
      intro nm c₀ hc
      by_cases hnm : nm = tgt.1
      · subst hnm
        rw [hc₂] at hc
        injection hc with hc
        subst hc
        obtain ⟨cτ', hcτ', htyc', hlenc'⟩ := hρτ tgt.1 c hlρc
        refine ⟨cτ', hcτ', ?_, ?_⟩
        · rw [writeVals_type, htyc']
        · rw [writeVals_length, hlenc']
      · rw [hother₂ nm hnm] at hc
        exact hρτ nm c₀ hc
    · -- twinStep
      intro nm
      by_cases hnm : nm = tgt.1
      · subst hnm
        refine Or.inr ⟨_, _, hc₁, hc₂, hty₂₁, hlen₂₁, ?_, ?_⟩
        · intro r hr
          rw [writeVals_getElem_mem c env.rows vals r hr,
            writeVals_getElem_mem col env.rows vals r hr]
          rw [hlenc, htyc]
        · intro r hrn
          constructor
          · left
            unfold cellVal
            rw [hl, Option.some_bind]
            exact writeVals_getElem_not_mem col env.rows vals r hrn
          · left
            unfold cellVal
            rw [hlρc, Option.some_bind]
            exact writeVals_getElem_not_mem c env.rows vals r hrn
      · exact Or.inl ⟨hother nm hnm, hother₂ nm hnm⟩

theorem processTargets_pair (env : Env) (src : Source) (t? : Option ValueType)
    (tgts : List (String × Option Int)) (τ : Store) :
    ∀ σ ρ σ₁,
    processTargets env src t? tgts σ = (σ₁, none) →
    typesExtend σ ρ → typesExtend ρ τ → typesExtend σ₁ τ →
    ∃ ρ₁, processTargets env src t? tgts ρ = (ρ₁, none) ∧
      typesExtend σ₁ ρ₁ ∧ typesExtend ρ₁ τ ∧ twinStep env σ ρ σ₁ ρ₁ := by
  induction tgts with
  | nil =>
    intro σ ρ σ₁ h hσρ hρτ hσ₁τ
    obtain rfl : σ = σ₁ := congrArg Prod.fst h
    exact ⟨ρ, rfl, hσρ, hρτ, twinStep_refl env σ ρ⟩
  | cons tgt rest ih =>
    intro σ ρ σ₁ h hσρ hρτ hσ₁τ
    obtain ⟨σa, hp, hrest⟩ := processTargets_cons_ok env src t? tgt rest σ σ₁ h
    have hσaσ₁ : typesExtend σa σ₁ :=
      typesExtend_processTargets env src t? rest σa σ₁ hrest
    have hσaτ : typesExtend σa τ := typesExtend_trans _ _ _ hσaσ₁ hσ₁τ
    obtain ⟨ρa, hp₂, hE1, hρaτ, htwin1⟩ :=
      processTarget_pair env σ ρ τ src t? tgt σa hp hσρ hρτ hσaτ
    obtain ⟨ρ₁, hrest₂, hE, hρ₁τ, htwin2⟩ := ih σa ρa σ₁ hrest hE1 hρaτ hσ₁τ
    refine ⟨ρ₁, ?_, hE, hρ₁τ, ?_⟩
    · simp only [processTargets, hp₂]
      exact hrest₂
    · have hEρ : typesExtend ρa ρ₁ :=
        typesExtend_processTargets env src t? rest ρa ρ₁ hrest₂
      exact twin_comp env σ ρ σa ρa σ₁ ρ₁ htwin1 htwin2 hσaσ₁ hEρ

theorem processSpec_pair (env : Env) (s : AssignmentSpec) (τ σ ρ σ₁ : Store)
    (h : processSpec env σ s = (σ₁, none))
    (hσρ : typesExtend σ ρ) (hρτ : typesExtend ρ τ) (hσ₁τ : typesExtend σ₁ τ) :
    ∃ ρ₁, processSpec env ρ s = (ρ₁, none) ∧
      typesExtend σ₁ ρ₁ ∧ typesExtend ρ₁ τ ∧ twinStep env σ ρ σ₁ ρ₁ := by
  obtain ⟨src, hsrc, h⟩ := processSpec_ok_elim env σ s σ₁ h
  obtain ⟨ρ₁, h₂, hE, hρ₁τ, htwin⟩ :=
    processTargets_pair env src s.declType (targetsOf s) τ σ ρ σ₁ h hσρ hρτ hσ₁τ
  refine ⟨ρ₁, ?_, hE, hρ₁τ, htwin⟩
  simp only [processSpec, hsrc]
  exact h₂

theorem runPass_pair (env : Env) (specs : List AssignmentSpec) (τ : Store) :
    ∀ σ ρ, runPass env specs σ = (τ, none) →
    typesExtend σ ρ → typesExtend ρ τ →
    ∃ τ', runPass env specs ρ = (τ', none) ∧ twinStep env σ ρ τ τ' := by
  induction specs with
  | nil =>
    intro σ ρ h hσρ hρτ
    obtain rfl : σ = τ := congrArg Prod.fst h
    exact ⟨ρ, rfl, twinStep_refl env σ ρ⟩
  | cons s rest ih =>
    intro σ ρ h hσρ hρτ
    obtain ⟨σ₁, hp, hrest⟩ := runPass_cons_ok env s rest σ τ h
    have hσ₁τ : typesExtend σ₁ τ := typesExtend_runPass env rest σ₁ τ hrest
    obtain ⟨ρ₁, hp₂, hE, hρ₁τ, htwin1⟩ := processSpec_pair env s τ σ ρ σ₁ hp hσρ hρτ hσ₁τ
    obtain ⟨τ', hrest₂, htwin2⟩ := ih σ₁ ρ₁ hrest hE hρ₁τ
    refine ⟨τ', ?_, ?_⟩
    · simp only [runPass, hp₂]
      exact hrest₂
    · have hEρ : typesExtend ρ₁ τ' := typesExtend_runPass env rest ρ₁ τ' hrest₂
      exact twin_comp env σ ρ σ₁ ρ₁ τ τ' htwin1 htwin2 hσ₁τ hEρ

/-- C8: an assignment pass whose specs all use literal value sources is
idempotent: if the pass, applied to an initial table state (with distinct
column names), succeeds and produces the store τ, then applying the same pass
to τ succeeds and leaves τ exactly unchanged, so running the pass twice gives
the same final column contents as running it once.  In this model the
external evaluator is a fixed pure function of its arguments, which is the
idempotent-evaluator hypothesis of the spec, so the proof does not in fact
depend on the sources being literal. -/
theorem assignment_pass_idempotent (env : Env) (specs : List AssignmentSpec)
    (σ τ : Store)
    (_hlit : ∀ s ∈ specs, s.fnref = none)
    (hnd : (storeKeys σ).Nodup)
    (hrun : runPass env specs σ = (τ, none)) :
    runPass env specs τ = (τ, none) := by
  have hστ : typesExtend σ τ := typesExtend_runPass env specs σ τ hrun
  obtain ⟨τ', hrun₂, htwin⟩ :=
    runPass_pair env specs τ σ τ hrun hστ (typesExtend_refl τ)
  have hlup : ∀ name, lookupCol τ' name = lookupCol τ name := by
    intro name
    rcases htwin name with ⟨h₁, h₂⟩ | ⟨c₁, c₂, hc₁, hc₂, hty, hlen, hrows, hnrows⟩
    · exact h₂
    · have hdata : ∀ r : Nat, c₂.data[r]? = c₁.data[r]? := by
        intro r
        by_cases hr : r ∈ env.rows
        · exact hrows r hr
        · rcases (hnrows r hr).2 with hv | ⟨habs, _⟩
          · rw [hv]
            unfold cellVal
            rw [hc₁, Option.some_bind]
          · rw [habs] at hc₁
            exact absurd hc₁ (by simp)
      have hdeq : c₂.data = c₁.data := List.ext_getElem? hdata
      have hcc : c₂ = c₁ := by
        cases c₂ with
        | mk ty₂ d₂ =>
          cases c₁ with
          | mk ty₁ d₁ =>
            simp only [Column.mk.injEq]
            exact ⟨hty, hdeq⟩
      rw [hc₂, hc₁, hcc]
  have hgrow₁ : keysGrow σ τ := keysGrow_runPass env specs σ τ hrun
  have hgrow₂ : keysGrow τ τ' := keysGrow_runPass env specs τ τ' hrun₂
  have hndτ : (storeKeys τ).Nodup := hgrow₁.2 hnd
  have hndτ' : (storeKeys τ').Nodup := hgrow₂.2 hndτ
  obtain ⟨extra, hkeys⟩ := hgrow₂.1
  have hextra : extra = [] := by
    cases extra with
    | nil => rfl
    | cons nm ex =>
      exfalso
      have hmem' : nm ∈ storeKeys τ' := by rw [hkeys]; simp
      have hsome : (lookupCol τ' nm).isSome := (lookupCol_isSome_iff τ' nm).mpr hmem'
      rw [hlup nm] at hsome
      have hmem : nm ∈ storeKeys τ := (lookupCol_isSome_iff τ nm).mp hsome
      rw [hkeys, List.nodup_append] at hndτ'
      exact hndτ'.2.2 hmem (by simp)
  rw [hextra, List.append_nil] at hkeys
  have hfin : τ' = τ := storeExt τ' τ hkeys hndτ' hlup
  rw [hfin] at hrun₂
  exact hrun₂

/-- C8 witness: the literal pass of scenario 2 (create Integer column flag,
write 2 at the selected rows 1 and 2 of a four-row table) run a second time
on its own output leaves the output unchanged. -/
theorem assignment_pass_idempotent_witness :
    ((∀ s ∈ [specFlag2], s.fnref = none) ∧
     (storeKeys ([] : Store)).Nodup ∧
     runPass envFourRows [specFlag2] [] =
       ([("flag", ⟨ValueType.Integer,
           [Value.missingOf ValueType.Integer, Value.intV 2, Value.intV 2,
            Value.missingOf ValueType.Integer]⟩)], none)) ∧
    runPass envFourRows [specFlag2]
      [("flag", ⟨ValueType.Integer,
         [Value.missingOf ValueType.Integer, Value.intV 2, Value.intV 2,
          Value.missingOf ValueType.Integer]⟩)] =
      ([("flag", ⟨ValueType.Integer,
          [Value.missingOf ValueType.Integer, Value.intV 2, Value.intV 2,
           Value.missingOf ValueType.Integer]⟩)], none) :=
  ⟨⟨by decide, by decide, by decide⟩,
    assignment_pass_idempotent envFourRows [specFlag2] []
      [("flag", ⟨ValueType.Integer,
         [Value.missingOf ValueType.Integer, Value.intV 2, Value.intV 2,
          Value.missingOf ValueType.Integer]⟩)]
      (by decide) (by decide) (by decide)⟩
